import Mathlib

/-!
Verification of the cyberguard-ids-ips detection-and-evidence pipeline.

Shallow embedding of the Python sources:
- `backend/services/ids_service.py` (threat-level table, block/unblock,
  prediction-side alert storage),
- `backend/models/schemas.py` (the `AttackType` enum),
- `backend/services/network_monitor.py` (alert gating, pcap evidence buffer),
- `backend/services/websocket_manager.py` (broadcast with per-subscriber
  failure isolation),
- `backend/main_realtime.py` (the stateful `ThreatDetector`),
- `backend/services/blockchain_audit.py` (the hash-linked audit chain).

Python floats that are only every compared against literal thresholds are
modelled as rationals; machine-level float rounding plays no role in any of
the compared code paths.  SHA-256 is modelled as an explicit hash-function
parameter `H : String → String` applied to the block's serialized form, so
that theorems state exactly which properties of the hash they use.
-/

namespace IdsService

/-- From `ids_service.py`, `_get_threat_level`: the fixed label→base-level
table (`threat_mapping`). -/
def threatMapping : List (String × String) :=
  [("Flood Attacks", "HIGH"),
   ("Botnet/Mirai Attacks", "HIGH"),
   ("Backdoors & Exploits", "CRITICAL"),
   ("Injection Attacks", "HIGH"),
   ("Spoofing / MITM", "MEDIUM"),
   ("Reconnaissance", "LOW")]

/-- From `ids_service.py`, `_get_threat_level`: the one-step downgrade
table (`level_downgrade`). -/
def levelDowngrade : List (String × String) :=
  [("CRITICAL", "HIGH"),
   ("HIGH", "MEDIUM"),
   ("MEDIUM", "LOW"),
   ("LOW", "LOW")]

/-- `IDSService._get_threat_level(class_name, confidence)`. -/
def getThreatLevel (className : String) (confidence : ℚ) : String :=
  if className == "Benign" then "LOW"
  else
    let base := (threatMapping.lookup className).getD "MEDIUM"
    if confidence < 7/10 then (levelDowngrade.lookup base).getD "LOW"
    else base

end IdsService

namespace Schemas

/-- The `AttackType` enum from `models/schemas.py`. -/
inductive AttackType where
  | FLOOD_ATTACK
  | BOTNET_MIRAI
  | BACKDOOR_EXPLOIT
  | INJECTION_ATTACK
  | RECONNAISSANCE
  | SPOOFING_MITM
  | BENIGN
deriving DecidableEq, Repr

/-- The string value of each `AttackType` member, as declared in
`models/schemas.py`. -/
def AttackType.value : AttackType → String
  | .FLOOD_ATTACK => "Flood Attacks"
  | .BOTNET_MIRAI => "Botnet/Mirai Attacks"
  | .BACKDOOR_EXPLOIT => "Backdoors & Exploits"
  | .INJECTION_ATTACK => "Injection Attacks"
  | .RECONNAISSANCE => "Reconnaissance"
  | .SPOOFING_MITM => "Spoofing / MITM"
  | .BENIGN => "Benign"

/-- Python's `AttackType(s)` enum lookup by value (raises on unknown
values, hence `Option`). -/
def attackTypeOfValue (s : String) : Option AttackType :=
  if s == "Flood Attacks" then some .FLOOD_ATTACK
  else if s == "Botnet/Mirai Attacks" then some .BOTNET_MIRAI
  else if s == "Backdoors & Exploits" then some .BACKDOOR_EXPLOIT
  else if s == "Injection Attacks" then some .INJECTION_ATTACK
  else if s == "Reconnaissance" then some .RECONNAISSANCE
  else if s == "Spoofing / MITM" then some .SPOOFING_MITM
  else if s == "Benign" then some .BENIGN
  else none

end Schemas

namespace Gates

open Schemas

/-- From `ids_service.py`, `predict_attack`: the alert's `attack_type`
field is `AttackType(class_name) if class_name != 'Benign' else
AttackType.BENIGN`. -/
def alertAttackType (className : String) : Option AttackType :=
  if className != "Benign" then attackTypeOfValue className
  else some .BENIGN

/-- From `ids_service.py`, `predict_attack`: the alert is stored in
`recent_alerts` (and counted in `attack_stats`) iff
`class_name != 'Benign'`. -/
def storeGate (className : String) : Bool :=
  className != "Benign"

/-- From `network_monitor.py`, `_analyze_packet_for_threats`: the alert is
broadcast over WebSocket and persisted (with pcap evidence) iff
`threat_alert.attack_type.value != 'BENIGN' and threat_alert.confidence > 0.7`. -/
def broadcastGate (attackType : AttackType) (confidence : ℚ) : Bool :=
  attackType.value != "BENIGN" && decide ((7 : ℚ)/10 < confidence)

end Gates

namespace IdsService

/-- Only the fields `block_threat`/`unblock_threat` read or write are
modelled from `ThreatAlert`: `id` and the single mutable field `blocked`. -/
structure SAlert where
  id : String
  blocked : Bool
deriving DecidableEq, Repr

/-- The state these operations touch: `recent_alerts` and
`attack_stats["blocked_attacks"]` (a Python `int`, hence `Int`). -/
structure BlockState where
  recentAlerts : List SAlert
  blockedAttacks : Int
deriving DecidableEq, Repr

/-- Helper for `block_threat`: walk `recent_alerts`; at the first alert
with matching id, set `blocked = True` and stop (the Python loop
`return`s inside the `for`). `none` when no alert matches. -/
def blockList (tid : String) : List SAlert → Option (List SAlert)
  | [] => none
  | a :: r =>
    if a.id == tid then some ({ a with blocked := true } :: r)
    else (blockList tid r).map (a :: ·)

/-- `IDSService.block_threat(threat_id)`: on a match, sets `blocked`,
increments `blocked_attacks` unconditionally, returns `True`; otherwise
returns `False` with no state change. -/
def blockThreat (tid : String) (st : BlockState) : Bool × BlockState :=
  match blockList tid st.recentAlerts with
  | some l => (true, { recentAlerts := l, blockedAttacks := st.blockedAttacks + 1 })
  | none => (false, st)

/-- Helper for `unblock_threat`: walk `recent_alerts`; at the first alert
with matching id, clear `blocked` only if it was set, and report whether
it was set. -/
def unblockList (tid : String) : List SAlert → Option (List SAlert × Bool)
  | [] => none
  | a :: r =>
    if a.id == tid then
      some ((if a.blocked then { a with blocked := false } else a) :: r, a.blocked)
    else (unblockList tid r).map (fun p => (a :: p.1, p.2))

/-- `IDSService.unblock_threat(threat_id)`: on a match, returns `True` and
decrements `blocked_attacks` only when the alert was blocked; otherwise
returns `False` with no state change. -/
def unblockThreat (tid : String) (st : BlockState) : Bool × BlockState :=
  match unblockList tid st.recentAlerts with
  | some (l, wasBlocked) =>
    (true, { recentAlerts := l,
             blockedAttacks := if wasBlocked then st.blockedAttacks - 1
                               else st.blockedAttacks })
  | none => (false, st)

/-- First alert in the list with the given id, if any. -/
def findAlert (tid : String) : List SAlert → Option SAlert
  | [] => none
  | a :: r => if a.id == tid then some a else findAlert tid r

end IdsService

namespace Realtime

/-- The transport layer attached to a captured packet, deciding the
`packet.haslayer(...)` branches of `ThreatDetector.detect_attack` in
`main_realtime.py`. -/
inductive Layer where
  | tcp (sport dport flags : Nat)
  | icmp (icmpType icmpCode : Nat)
  | arp (op : Nat)
  | otherLayer
deriving DecidableEq, Repr

/-- A captured packet as `detect_attack` reads it: presence of an IP
layer, the IP source/destination, and the transport layer. -/
structure Packet where
  hasIP : Bool
  src : String
  dst : String
  layer : Layer
deriving DecidableEq, Repr

/-- The per-branch `raw_data` dict of an emitted threat. -/
inductive RawData where
  | tcpFlood (sport dport flags : Nat)
  | portScan (scannedPorts : List Nat) (totalPorts : Nat)
  | icmpFlood (icmpType icmpCode : Nat)
  | arpScan (op : Nat)
deriving DecidableEq, Repr

/-- The fields of the threat dict built by `detect_attack` that are not
ambient effects (`uuid.uuid4()` ids and `datetime.now()` timestamps are
omitted; `confidence` floats 95.0/85.0/80.0/70.0 are carried as the
naturals 95/85/80/70). -/
structure Threat where
  source_ip : String
  destination_ip : String
  attack_type : String
  threat_level : String
  confidence : Nat
  blocked : Bool
  raw : RawData
deriving DecidableEq, Repr

/-- `ThreatDetector.attack_patterns` plus `target_ip`.  The Python
counters are fields of one (global, not per-source) dict; the port set is
modelled as a duplicate-free list in insertion order (CPython set
iteration order is implementation-defined; the model fixes insertion
order for `list(ports)`). -/
structure DetState where
  targetIp : String
  synCount : Nat
  scanPorts : List Nat
  icmpCount : Nat
  arpCount : Nat
deriving DecidableEq, Repr

/-- Python `set.add`: append iff not already present. -/
def addPort (p : Nat) (ports : List Nat) : List Nat :=
  if p ∈ ports then ports else ports ++ [p]

/-- `ThreatDetector.detect_attack(packet)`: returns the optional threat
and the updated detector state.  Thresholds: SYN 50, port scan 10,
ICMP 20, ARP 30.  Branches are `elif`-chained exactly as in the source;
`scanned_ports` is `list(ports)[-10:]`. -/
def detectAttack (p : Packet) (st : DetState) : Option Threat × DetState :=
  if p.hasIP = false then (none, st)
  else if p.dst != st.targetIp then (none, st)
  else
    match p.layer with
    | .tcp sport dport flags =>
      if flags == 2 then
        let c := st.synCount + 1
        if c > 50 then
          (some { source_ip := p.src, destination_ip := p.dst,
                  attack_type := "Flood Attacks", threat_level := "HIGH",
                  confidence := 95, blocked := false,
                  raw := .tcpFlood sport dport flags },
           { st with synCount := 0 })
        else (none, { st with synCount := c })
      else
        let ports := addPort dport st.scanPorts
        if ports.length > 10 then
          (some { source_ip := p.src, destination_ip := p.dst,
                  attack_type := "Reconnaissance", threat_level := "MEDIUM",
                  confidence := 85, blocked := false,
                  raw := .portScan (ports.drop (ports.length - 10)) ports.length },
           { st with scanPorts := [] })
        else (none, { st with scanPorts := ports })
    | .icmp t c =>
      let n := st.icmpCount + 1
      if n > 20 then
        (some { source_ip := p.src, destination_ip := p.dst,
                attack_type := "Flood Attacks", threat_level := "MEDIUM",
                confidence := 80, blocked := false,
                raw := .icmpFlood t c },
         { st with icmpCount := 0 })
      else (none, { st with icmpCount := n })
    | .arp op =>
      let n := st.arpCount + 1
      if n > 30 then
        (some { source_ip := p.src, destination_ip := p.dst,
                attack_type := "Reconnaissance", threat_level := "LOW",
                confidence := 70, blocked := false,
                raw := .arpScan op },
         { st with arpCount := 0 })
      else (none, { st with arpCount := n })
    | .otherLayer => (none, st)

/-- Runs `detect_attack` over a packet sequence (the `packet_handler`
loop), collecting emitted threats in order. -/
def runDetect : List Packet → DetState → List Threat × DetState
  | [], st => ([], st)
  | p :: ps, st =>
    let r := detectAttack p st
    let rest := runDetect ps r.2
    (r.1.toList ++ rest.1, rest.2)

/-- The packet is a TCP SYN-only packet (`packet[TCP].flags == 2`). -/
def isSynOnly (p : Packet) : Bool :=
  match p.layer with
  | .tcp _ _ flags => flags == 2
  | _ => false

/-- The packet has a TCP layer. -/
def isTcp (p : Packet) : Bool :=
  match p.layer with
  | .tcp _ _ _ => true
  | _ => false

/-- The TCP destination port (0 when no TCP layer is present). -/
def pDport (p : Packet) : Nat :=
  match p.layer with
  | .tcp _ dport _ => dport
  | _ => 0

/-- A concrete SYN-only packet to the configured target. -/
def synPkt : Packet :=
  { hasIP := true, src := "10.0.0.5", dst := "192.168.100.124",
    layer := .tcp 1234 80 2 }

/-- A concrete ACK packet (flags 16) to the configured target, one per
destination port. -/
def scanPkt (dport : Nat) : Packet :=
  { hasIP := true, src := "10.0.0.99", dst := "192.168.100.124",
    layer := .tcp 4321 dport 16 }

/-- A fresh detector state for the configured target. -/
def detSt0 : DetState :=
  { targetIp := "192.168.100.124", synCount := 0, scanPorts := [],
    icmpCount := 0, arpCount := 0 }

end Realtime

namespace WebSocketHub

/-- Subscribers are identified by handles; `WebSocketManager` state is its
`active_connections` list (the `connection_info` dict mirrors membership
and carries no data the broadcast logic reads). -/
structure WSState where
  activeConnections : List Nat
deriving DecidableEq, Repr

/-- `WebSocketManager.disconnect(ws)`: remove the first occurrence if
present. -/
def disconnect (c : Nat) (st : WSState) : WSState :=
  { activeConnections := st.activeConnections.erase c }

/-- The loop body of `WebSocketManager.broadcast`: walk a copy of the
connection list; a subscriber whose `client_state` is not CONNECTED, or
whose `send_text` raises, is collected in `disconnected` and the loop
continues; otherwise the message is delivered.  `connected c` models
`c.client_state.name == 'CONNECTED'` and `sendOk c` models `send_text`
not raising.  Returns (delivered, disconnected) in walk order. -/
def broadcastWalk (connected sendOk : Nat → Bool) :
    List Nat → List Nat × List Nat
  | [] => ([], [])
  | c :: r =>
    let (d, x) := broadcastWalk connected sendOk r
    if connected c then
      if sendOk c then (c :: d, x) else (d, c :: x)
    else (d, c :: x)

/-- `WebSocketManager.broadcast(message)`: after the walk, every
collected subscriber is disconnected.  Returns the delivered list and the
final state. -/
def broadcast (connected sendOk : Nat → Bool) (st : WSState) :
    List Nat × WSState :=
  let (delivered, dropped) := broadcastWalk connected sendOk st.activeConnections
  (delivered, dropped.foldl (fun s c => disconnect c s) st)

end WebSocketHub

namespace NetworkMonitor

/-- A buffered raw frame: capture timestamp (seconds) and raw bytes. -/
structure Frame where
  ts : Nat
  raw : String
deriving DecidableEq, Repr

/-- `self.pcap_buffer`: a dict keyed by `"src_dst"` strings, modelled as
an association list. -/
abbrev PcapBuffer := List (String × List Frame)

/-- Dict write `buf[key] = l`: replace the first binding or append a new
one. -/
def assocSet (key : String) (l : List Frame) : PcapBuffer → PcapBuffer
  | [] => [(key, l)]
  | e :: r => if e.1 == key then (key, l) :: r else e :: assocSet key l r

/-- Dict read with key-presence test: `buf[key]` if `key in buf`, else
the `[]` installed by `_process_packet` on first sight of a key. -/
def assocGet (key : String) (buf : PcapBuffer) : List Frame :=
  (List.lookup key buf).getD []

/-- The pcap part of `NetworkMonitor._process_packet`: append the raw
frame under `"source_dest"` and trim that connection's list to its last
100 entries (`pcap_buffer[key][-100:]`) when it exceeds 100. -/
def recordPacket (key : String) (f : Frame) (buf : PcapBuffer) : PcapBuffer :=
  let cur := assocGet key buf
  let upd := cur ++ [f]
  let upd' := if upd.length > 100 then upd.drop (upd.length - 100) else upd
  assocSet key upd' buf

/-- Stable insertion into a timestamp-sorted list; `sortFrames` models
`relevant_packets.sort(key=lambda x: x['timestamp'])` (Python sorts are
stable). -/
def insertFrame (f : Frame) : List Frame → List Frame
  | [] => [f]
  | g :: r => if f.ts < g.ts then f :: g :: r else g :: insertFrame f r

/-- Stable sort by timestamp. -/
def sortFrames : List Frame → List Frame
  | [] => []
  | f :: r => insertFrame f (sortFrames r)

/-- The frame-window filter of `_generate_pcap_for_threat`: keep frames
with `timestamp >= now - 30` (`pcap_window_seconds = 30`; truncated
subtraction agrees with the Python arithmetic for the representable
times). -/
def windowFilter (now : Nat) (l : List Frame) : List Frame :=
  l.filter (fun f => decide (now - 30 ≤ f.ts))

/-- The frames `_generate_pcap_for_threat` collects before sorting: both
directions of the conversation (`"src_dst"` then `"dst_src"`), each
filtered to the last 30 seconds.  A key absent from the dict contributes
nothing. -/
def relevantFrames (buf : PcapBuffer) (srcIp dstIp : String) (now : Nat) :
    List Frame :=
  let k1 := srcIp ++ "_" ++ dstIp
  let k2 := dstIp ++ "_" ++ srcIp
  (match List.lookup k1 buf with
   | some l => windowFilter now l
   | none => []) ++
  (match List.lookup k2 buf with
   | some l => windowFilter now l
   | none => [])

/-- `NetworkMonitor._generate_pcap_for_threat(source_ip, dest_ip, _)` up
to pcap serialization: the time-windowed bidirectional frame list, sorted
by timestamp.  (The scapy re-encoding of the returned frames is I/O and
is not modelled.) -/
def snapshot (buf : PcapBuffer) (srcIp dstIp : String) (now : Nat) :
    List Frame :=
  sortFrames (relevantFrames buf srcIp dstIp now)

/-- Every per-connection list in the buffer holds at most 100 frames. -/
def bufBounded (buf : PcapBuffer) : Bool :=
  buf.all (fun e => decide (e.2.length ≤ 100))

/-- A frame used by the concrete counterexample/witness buffers. -/
def cxFrame : Frame := { ts := 100, raw := "x" }

/-- A buffer built only through `recordPacket`: 51 frames in each
direction of the `"a"`/`"b"` conversation. -/
def cxBuf : PcapBuffer :=
  (List.range 51).foldl (fun b _ => recordPacket "b_a" cxFrame b)
    ((List.range 51).foldl (fun b _ => recordPacket "a_b" cxFrame b) [])

/-- The snapshot list is sorted by timestamp. -/
def sortedByTs (l : List Frame) : Prop :=
  l.Pairwise (fun f g => f.ts ≤ g.ts)

end NetworkMonitor

namespace BlockchainAudit

/-- A block of `blockchain_audit.py`.  `data` holds the payload dict as
its JSON text; `hash` is `""` until mined (Python initializes it to
`None` and `_mine_block` fills it). -/
structure Block where
  index : Nat
  timestamp : String
  data : String
  previous_hash : String
  nonce : Nat
  hash : String
deriving DecidableEq, Repr

instance : Inhabited Block :=
  ⟨{ index := 0, timestamp := "", data := "", previous_hash := "",
     nonce := 0, hash := "" }⟩

/-- The string `_calculate_hash` feeds to SHA-256:
`json.dumps({'index': …, 'timestamp': …, 'data': …, 'previous_hash': …,
'nonce': …}, sort_keys=True)` — keys in sorted order `data`, `index`,
`nonce`, `previous_hash`, `timestamp`; the `hash` field is excluded. -/
def serializeBlock (b : Block) : String :=
  "\x7b\"data\": " ++ b.data ++ ", \"index\": " ++ toString b.index ++
  ", \"nonce\": " ++ toString b.nonce ++ ", \"previous_hash\": \"" ++
  b.previous_hash ++ "\", \"timestamp\": \"" ++ b.timestamp ++ "\"\x7d"

/-- `_calculate_hash`, parametric in the hash function `H` standing for
`hashlib.sha256(...).hexdigest()`. -/
def calculateHash (H : String → String) (b : Block) : String :=
  H (serializeBlock b)

/-- The proof-of-work target `"0" * difficulty`. -/
def zeros (d : Nat) : String :=
  String.mk (List.replicate d '0')

/-- Python's `str.startswith`. -/
def strStartsWith (s p : String) : Bool :=
  p.toList.isPrefixOf s.toList

/-- `_mine_block`, with explicit fuel for the `while True` loop: check
the current nonce first; on failure increment it; once the nonce exceeds
1,000,000 lower the difficulty by one (floor 1), reset the nonce, and
keep searching the same block.  Returns the mined block and the
difficulty in effect when the hash was found. -/
def mineBlock (H : String → String) : Nat → Block → Nat → Option (Block × Nat)
  | 0, _, _ => none
  | fuel + 1, b, d =>
    let h := calculateHash H b
    if strStartsWith h (zeros d) then some ({ b with hash := h }, d)
    else
      let n := b.nonce + 1
      if n > 1000000 then mineBlock H fuel { b with nonce := 0 } (max 1 (d - 1))
      else mineBlock H fuel { b with nonce := n } d

/-- `_is_valid_block(block, previous_block)`: index succession, hash
linkage, hash recomputation, and the proof-of-work target at the chain's
current difficulty. -/
def isValidBlock (H : String → String) (d : Nat) (b prev : Block) : Bool :=
  (b.index == prev.index + 1) &&
  (b.previous_hash == prev.hash) &&
  (b.hash == calculateHash H b) &&
  strStartsWith b.hash (zeros d)

/-- The loop of `is_chain_valid`: `_is_valid_block(chain[i], chain[i-1])`
for every `i` in `range(1, len(chain))` — consecutive pairs only, so the
genesis block itself is never re-validated. -/
def chainPairsValid (H : String → String) (d : Nat) : List Block → Bool
  | [] => true
  | [_] => true
  | a :: b :: r => isValidBlock H d b a && chainPairsValid H d (b :: r)

/-- `BlockchainAudit` state: the chain and the (mutable) difficulty. -/
structure AuditState where
  chain : List Block
  difficulty : Nat
deriving DecidableEq, Repr

/-- `is_chain_valid()`. -/
def isChainValid (H : String → String) (st : AuditState) : Bool :=
  chainPairsValid H st.difficulty st.chain

/-- The JSON text of the genesis block's `data` dict (keys in
`sort_keys` order). -/
def genesisData : String :=
  "\x7b\"description\": \"Cybersecurity IDS/IPS Platform started\", " ++
  "\"event\": \"genesis_block\", \"system\": \"audit_trail\"\x7d"

/-- `__init__` + `create_genesis_block`: difficulty 4, then the genesis
block (`index` 0, `previous_hash` `"0"`, `nonce` 0) is mined; mining can
lower the difficulty, which the state keeps. -/
def createGenesisState (H : String → String) (fuel : Nat) (ts : String) :
    Option AuditState :=
  let g : Block := { index := 0, timestamp := ts, data := genesisData,
                     previous_hash := "0", nonce := 0, hash := "" }
  match mineBlock H fuel g 4 with
  | some (g', d') => some { chain := [g'], difficulty := d' }
  | none => none

/-- `add_block(data)`: build a block on the current head, mine it, then
gate the append through `_is_valid_block` at the post-mining difficulty
(an invalid block raises `ValueError`, modelled as `none`). -/
def addBlock (H : String → String) (fuel : Nat) (ts data : String)
    (st : AuditState) : Option AuditState :=
  match st.chain.getLast? with
  | none => none
  | some prev =>
    match mineBlock H fuel
        { index := st.chain.length, timestamp := ts, data := data,
          previous_hash := prev.hash, nonce := 0, hash := "" }
        st.difficulty with
    | none => none
    | some (mined, d') =>
      if isValidBlock H d' mined prev
      then some { chain := st.chain ++ [mined], difficulty := d' }
      else none

/-- Payload tampering: overwrite the `data` field of the block at
position `i`, leaving every other field and block unchanged. -/
def setData : List Block → Nat → String → List Block
  | [], _, _ => []
  | b :: r, 0, d => { b with data := d } :: r
  | b :: r, i + 1, d => b :: setData r i d

/-- As `setData`, on the chain of a state. -/
def mutateData (st : AuditState) (i : Nat) (d : String) : AuditState :=
  { st with chain := setData st.chain i d }

/-- `import_chain(chain_data)`: the imported chain is validated through a
fresh `BlockchainAudit()` (whose difficulty is the class default 4), and
on success replaces `self.chain` wholesale, leaving `self.difficulty`
untouched; on failure `ValueError` is raised and the state is unchanged.
The boolean reports success.  (JSON decoding of `chain_data` is not
modelled: the input is the decoded block list.) -/
def importChain (H : String → String) (imported : List Block)
    (st : AuditState) : AuditState × Bool :=
  if chainPairsValid H 4 imported then ({ st with chain := imported }, true)
  else (st, false)

/-- Witness hash function: injective and meeting any target of up to four
leading zeros at once, so mining succeeds at the first nonce. -/
def testHash (s : String) : String :=
  "0000" ++ s

/-- A hash function that never produces a leading zero digit. -/
def oneHash (_ : String) : String :=
  "1"

/-- A two-block state built only through genesis creation and one
`add_block`, over `testHash`. -/
def cxChain2 : AuditState :=
  ((createGenesisState testHash 2 "t0").bind
    (addBlock testHash 2 "t1" "\"d1\"")).getD { chain := [], difficulty := 4 }

/-- `cxChain2` extended by one more `add_block`. -/
def cxChain3 : AuditState :=
  (addBlock testHash 2 "t2" "\"d2\"" cxChain2).getD { chain := [], difficulty := 4 }

/-- An unmined block used to exercise `mineBlock` concretely. -/
def cxMineBlock : Block :=
  { index := 0, timestamp := "t0", data := "\"d\"", previous_hash := "0",
    nonce := 0, hash := "" }

/-- `cxMineBlock` as `mineBlock testHash` returns it (first nonce hits). -/
def cxMined : Block :=
  { cxMineBlock with hash := testHash (serializeBlock cxMineBlock) }

/-- A genesis block whose stored hash neither recomputes nor meets the
proof-of-work target. -/
def cxGBad : Block :=
  { index := 0, timestamp := "t0", data := "\"g\"", previous_hash := "0",
    nonce := 0, hash := "BADHASH" }

/-- The `cxB1` block before its hash is filled in. -/
def cxB1core : Block :=
  { index := 1, timestamp := "t1", data := "\"y\"", previous_hash := "BADHASH",
    nonce := 0, hash := "" }

/-- A block that validly chains onto `cxGBad` under `testHash`. -/
def cxB1 : Block :=
  { cxB1core with hash := testHash (serializeBlock cxB1core) }

/-- A genesis-shaped block with an arbitrary target-meeting hash. -/
def cxGOK : Block :=
  { index := 0, timestamp := "t0", data := "\"g\"", previous_hash := "0",
    nonce := 0, hash := "0000G" }

/-- A block whose `previous_hash` does not match `cxGOK`'s hash. -/
def cxBBad : Block :=
  { index := 1, timestamp := "t1", data := "\"y\"", previous_hash := "MISMATCH",
    nonce := 0, hash := "0000Z" }

end BlockchainAudit

namespace Realtime

theorem detect_syn_step (p : Packet) (st : DetState)
    (hip : p.hasIP = true) (hdst : p.dst = st.targetIp)
    (hsyn : isSynOnly p = true) (hc : st.synCount + 1 ≤ 50) :
    detectAttack p st = (none, { st with synCount := st.synCount + 1 }) := by
  cases hl : p.layer with
  | tcp sp dp fl =>
    have hfl : (fl == 2) = true := by simpa [isSynOnly, hl] using hsyn
    simp [detectAttack, hip, hdst, hl, hfl, Nat.not_lt.mpr hc]
  | icmp a b => simp [isSynOnly, hl] at hsyn
  | arp a => simp [isSynOnly, hl] at hsyn
  | otherLayer => simp [isSynOnly, hl] at hsyn

theorem run_syn_segment (ps : List Packet) (st : DetState)
    (hall : ∀ p ∈ ps, p.hasIP = true ∧ p.dst = st.targetIp ∧ isSynOnly p = true)
    (hc : st.synCount + ps.length ≤ 50) :
    runDetect ps st = ([], { st with synCount := st.synCount + ps.length }) := by
  induction ps generalizing st with
  | nil => simp [runDetect]
  | cons p ps ih =>
    obtain ⟨hip, hdst, hsyn⟩ := hall p (by simp)
    have h1 : st.synCount + 1 ≤ 50 := by
      simp only [List.length_cons] at hc
      omega
    have h2 := ih { st with synCount := st.synCount + 1 }
      (fun q hq => hall q (by simp [hq]))
      (by simp only [List.length_cons] at hc ⊢; omega)
    rw [runDetect]
    simp only [detect_syn_step p st hip hdst hsyn h1, h2]
    simp only [List.length_cons]
    have h3 : st.synCount + 1 + ps.length = st.synCount + (ps.length + 1) := by
      omega
    simp [h3]

theorem runDetect_append (l1 l2 : List Packet) (st : DetState) :
    runDetect (l1 ++ l2) st =
      ((runDetect l1 st).1 ++ (runDetect l2 (runDetect l1 st).2).1,
       (runDetect l2 (runDetect l1 st).2).2) := by
  induction l1 generalizing st with
  | nil => simp [runDetect]
  | cons p r ih =>
    simp only [List.cons_append, runDetect]
    simp [ih]

theorem detect_syn_fire (p : Packet) (st : DetState) (sp dp fl : Nat)
    (hip : p.hasIP = true) (hdst : p.dst = st.targetIp)
    (hl : p.layer = .tcp sp dp fl) (hfl : (fl == 2) = true)
    (hc : 50 < st.synCount + 1) :
    detectAttack p st =
      (some { source_ip := p.src, destination_ip := p.dst,
              attack_type := "Flood Attacks", threat_level := "HIGH",
              confidence := 95, blocked := false,
              raw := .tcpFlood sp dp fl },
       { st with synCount := 0 }) := by
  simp [detectAttack, hip, hdst, hl, hfl, hc]

/-- C2: 51 SYN-only packets from one source to the monitored target, with
nothing interleaved and the SYN counter initially 0: no alert through the
first 50, exactly one "Flood Attacks"/HIGH alert on the 51st, and the SYN
counter is 0 immediately after. -/
theorem synFlood_51 (st : DetState) (ps : List Packet) (src : String)
    (h0 : st.synCount = 0)
    (hall : ∀ p ∈ ps, p.hasIP = true ∧ p.dst = st.targetIp ∧
      p.src = src ∧ isSynOnly p = true)
    (hlen : ps.length = 51) :
    (runDetect (ps.take 50) st).1 = [] ∧
    ∃ t, (runDetect ps st).1 = [t] ∧
      t.attack_type = "Flood Attacks" ∧ t.threat_level = "HIGH" ∧
      t.source_ip = src ∧ (runDetect ps st).2.synCount = 0 := by
  have htake : runDetect (ps.take 50) st =
      ([], { st with synCount := st.synCount + (ps.take 50).length }) := by
    refine run_syn_segment _ _ (fun p hp => ?_) ?_
    · obtain ⟨a, b, _, c⟩ := hall p (List.take_subset 50 ps hp)
      exact ⟨a, b, c⟩
    · simp [List.length_take, hlen, h0]
  have hlen50 : (ps.take 50).length = 50 := by
    simp [List.length_take, hlen]
  obtain ⟨p51, hdrop⟩ : ∃ p51, ps.drop 50 = [p51] := by
    apply List.length_eq_one.mp
    simp [List.length_drop, hlen]
  obtain ⟨hip, hdst, hsrc, hsyn⟩ := hall p51 (List.drop_subset 50 ps (by simp [hdrop]))
  obtain ⟨sp, dp, fl, hl, hfl⟩ :
      ∃ sp dp fl, p51.layer = .tcp sp dp fl ∧ (fl == 2) = true := by
    cases hl : p51.layer with
    | tcp sp dp fl =>
      exact ⟨sp, dp, fl, rfl, by simpa [isSynOnly, hl] using hsyn⟩
    | icmp a b => simp [isSynOnly, hl] at hsyn
    | arp a => simp [isSynOnly, hl] at hsyn
    | otherLayer => simp [isSynOnly, hl] at hsyn
  have hsplit := runDetect_append (ps.take 50) (ps.drop 50) st
  rw [List.take_append_drop] at hsplit
  have hfire := detect_syn_fire p51
    { st with synCount := st.synCount + (ps.take 50).length } sp dp fl hip hdst hl hfl
    (by simp [hlen50, h0])
  rw [hlen50] at htake hfire
  refine ⟨by rw [htake], ?_⟩
  rw [hsplit, htake, hdrop]
  refine ⟨{ source_ip := p51.src, destination_ip := p51.dst,
            attack_type := "Flood Attacks", threat_level := "HIGH",
            confidence := 95, blocked := false,
            raw := .tcpFlood sp dp fl }, ?_, rfl, rfl, hsrc, ?_⟩ <;>
    simp [runDetect, hfire]

theorem detect_scan_step (p : Packet) (st : DetState) (sp dp fl : Nat)
    (hip : p.hasIP = true) (hdst : p.dst = st.targetIp)
    (hl : p.layer = .tcp sp dp fl) (hfl : (fl == 2) = false)
    (hnew : dp ∉ st.scanPorts) (hc : st.scanPorts.length + 1 ≤ 10) :
    detectAttack p st = (none, { st with scanPorts := st.scanPorts ++ [dp] }) := by
  have ha : addPort dp st.scanPorts = st.scanPorts ++ [dp] := by
    simp [addPort, hnew]
  simp [detectAttack, hip, hdst, hl, hfl, ha, Nat.not_lt.mpr hc]

theorem run_scan_segment (ps : List Packet) (st : DetState)
    (hall : ∀ p ∈ ps, p.hasIP = true ∧ p.dst = st.targetIp ∧
      isTcp p = true ∧ isSynOnly p = false)
    (hnd : (st.scanPorts ++ ps.map pDport).Nodup)
    (hc : st.scanPorts.length + ps.length ≤ 10) :
    runDetect ps st = ([], { st with scanPorts := st.scanPorts ++ ps.map pDport }) := by
  induction ps generalizing st with
  | nil => simp [runDetect]
  | cons p ps ih =>
    obtain ⟨hip, hdst, htcp, hsyn⟩ := hall p (by simp)
    obtain ⟨sp, dp, fl, hl⟩ : ∃ sp dp fl, p.layer = .tcp sp dp fl := by
      cases hl : p.layer with
      | tcp sp dp fl => exact ⟨sp, dp, fl, rfl⟩
      | icmp a b => simp [isTcp, hl] at htcp
      | arp a => simp [isTcp, hl] at htcp
      | otherLayer => simp [isTcp, hl] at htcp
    have hfl : (fl == 2) = false := by
      simpa [isSynOnly, hl] using hsyn
    have hdp : pDport p = dp := by simp [pDport, hl]
    have hrearr : st.scanPorts ++ (p :: ps).map pDport =
        (st.scanPorts ++ [dp]) ++ ps.map pDport := by
      simp [hdp]
    have hnew : dp ∉ st.scanPorts := by
      rw [hrearr] at hnd
      have := hnd.of_append_left
      intro hmem
      exact (List.disjoint_of_nodup_append this) hmem (by simp)
    have h1 : st.scanPorts.length + 1 ≤ 10 := by
      simp only [List.length_cons] at hc
      omega
    have h2 := ih { st with scanPorts := st.scanPorts ++ [dp] }
      (fun q hq => hall q (by simp [hq]))
      (by rw [hrearr] at hnd; exact hnd)
      (by simp only [List.length_cons] at hc; simp; omega)
    rw [runDetect]
    simp only [detect_scan_step p st sp dp fl hip hdst hl hfl hnew h1, h2]
    simp [hdp]

theorem detect_scan_fire (p : Packet) (st : DetState) (sp dp fl : Nat)
    (hip : p.hasIP = true) (hdst : p.dst = st.targetIp)
    (hl : p.layer = .tcp sp dp fl) (hfl : (fl == 2) = false)
    (hnew : dp ∉ st.scanPorts) (hc : 10 < st.scanPorts.length + 1) :
    detectAttack p st =
      (some { source_ip := p.src, destination_ip := p.dst,
              attack_type := "Reconnaissance", threat_level := "MEDIUM",
              confidence := 85, blocked := false,
              raw := .portScan ((st.scanPorts ++ [dp]).drop
                       ((st.scanPorts ++ [dp]).length - 10))
                     (st.scanPorts ++ [dp]).length },
       { st with scanPorts := [] }) := by
  have ha : addPort dp st.scanPorts = st.scanPorts ++ [dp] := by
    simp [addPort, hnew]
  simp [detectAttack, hip, hdst, hl, hfl, ha]
  omega

/-- C3 (amended): 11 TCP packets that are not SYN-only, to the monitored
target, with pairwise-distinct destination ports, from an empty port set:
no alert through the first 10, exactly one "Reconnaissance"/MEDIUM alert
on the 11th listing the last 10 of the 11 scanned ports, and the port set
is empty afterward. -/
theorem portScan_11 (st : DetState) (ps : List Packet)
    (h0 : st.scanPorts = [])
    (hall : ∀ p ∈ ps, p.hasIP = true ∧ p.dst = st.targetIp ∧
      isTcp p = true ∧ isSynOnly p = false)
    (hnd : (ps.map pDport).Nodup)
    (hlen : ps.length = 11) :
    (runDetect (ps.take 10) st).1 = [] ∧
    ∃ t, (runDetect ps st).1 = [t] ∧
      t.attack_type = "Reconnaissance" ∧ t.threat_level = "MEDIUM" ∧
      t.raw = .portScan ((ps.map pDport).drop 1) 11 ∧
      (runDetect ps st).2.scanPorts = [] := by
  have hmapsplit : (ps.take 10).map pDport ++ (ps.drop 10).map pDport =
      ps.map pDport := by
    rw [← List.map_append, List.take_append_drop]
  have htake : runDetect (ps.take 10) st =
      ([], { st with scanPorts := st.scanPorts ++ (ps.take 10).map pDport }) := by
    refine run_scan_segment _ _ (fun p hp => hall p (List.take_subset 10 ps hp)) ?_ ?_
    · rw [h0]
      simp only [List.nil_append]
      exact (hmapsplit ▸ hnd).of_append_left
    · simp [h0, List.length_take, hlen]
  have hlen10 : (ps.take 10).length = 10 := by
    simp [List.length_take, hlen]
  obtain ⟨p11, hdrop⟩ : ∃ p11, ps.drop 10 = [p11] := by
    apply List.length_eq_one.mp
    simp [List.length_drop, hlen]
  obtain ⟨hip, hdst, htcp, hsyn⟩ := hall p11 (List.drop_subset 10 ps (by simp [hdrop]))
  obtain ⟨sp, dp, fl, hl⟩ : ∃ sp dp fl, p11.layer = .tcp sp dp fl := by
    cases hl : p11.layer with
    | tcp sp dp fl => exact ⟨sp, dp, fl, rfl⟩
    | icmp a b => simp [isTcp, hl] at htcp
    | arp a => simp [isTcp, hl] at htcp
    | otherLayer => simp [isTcp, hl] at htcp
  have hfl : (fl == 2) = false := by
    simpa [isSynOnly, hl] using hsyn
  have hdp : pDport p11 = dp := by simp [pDport, hl]
  have hmap : ps.map pDport = (ps.take 10).map pDport ++ [dp] := by
    rw [← hmapsplit, hdrop]
    simp [hdp]
  have hnew : dp ∉ (ps.take 10).map pDport := by
    rw [hmap] at hnd
    intro hmem
    exact (List.disjoint_of_nodup_append hnd) hmem (by simp)
  have hsplit := runDetect_append (ps.take 10) (ps.drop 10) st
  rw [List.take_append_drop] at hsplit
  have hfire := detect_scan_fire p11
    { st with scanPorts := st.scanPorts ++ (ps.take 10).map pDport } sp dp fl hip hdst hl hfl
    (by simpa [h0] using hnew)
    (by rw [h0]; simp only [List.nil_append, List.length_map, hlen10]; omega)
  have hports : (st.scanPorts ++ (ps.take 10).map pDport) ++ [dp] = ps.map pDport := by
    rw [h0, hmap]
    simp
  refine ⟨by rw [htake], ?_⟩
  rw [hsplit, htake, hdrop]
  dsimp only at hfire
  rw [hports] at hfire
  have hml : (ps.map pDport).length = 11 := by simp [hlen]
  rw [hml, (show (11 : Nat) - 10 = 1 from rfl)] at hfire
  refine ⟨{ source_ip := p11.src, destination_ip := p11.dst,
            attack_type := "Reconnaissance", threat_level := "MEDIUM",
            confidence := 85, blocked := false,
            raw := .portScan ((ps.map pDport).drop 1) 11 }, ?_, rfl, rfl, rfl, ?_⟩ <;>
  · dsimp only
    rw [runDetect, hfire]
    simp [runDetect]

/-- Witness for `synFlood_51`: 51 identical SYN-only packets from
10.0.0.5 against a fresh detector. -/
theorem synFlood_51_witness :
    (runDetect ((List.replicate 51 synPkt).take 50) detSt0).1 = [] ∧
    ∃ t, (runDetect (List.replicate 51 synPkt) detSt0).1 = [t] ∧
      t.attack_type = "Flood Attacks" ∧ t.threat_level = "HIGH" ∧
      t.source_ip = "10.0.0.5" ∧
      (runDetect (List.replicate 51 synPkt) detSt0).2.synCount = 0 :=
  synFlood_51 detSt0 (List.replicate 51 synPkt) "10.0.0.5" rfl
    (fun p hp => by rw [List.eq_of_mem_replicate hp]; exact ⟨rfl, rfl, rfl, rfl⟩)
    (by simp)

/-- C3 counterexample: a TCP packet that is SYN-only takes the SYN-flood
branch of the `elif` chain, so its destination port is NOT added to the
port-scan set, contradicting "for every TCP packet evaluated by the
detector, the packet's destination port is added to the port set". -/
theorem portScan_syn_counterexample :
    isTcp synPkt = true ∧ pDport synPkt = 80 ∧
    (detectAttack synPkt detSt0).2.scanPorts = [] ∧
    80 ∉ (detectAttack synPkt detSt0).2.scanPorts := by
  refine ⟨rfl, rfl, ?_, ?_⟩ <;> decide

/-- Witness for `portScan_11`: 11 ACK packets to ports 100..110 against a
fresh detector. -/
theorem portScan_11_witness :
    (runDetect (((List.range 11).map (fun n => scanPkt (100 + n))).take 10) detSt0).1 = [] ∧
    ∃ t, (runDetect ((List.range 11).map (fun n => scanPkt (100 + n))) detSt0).1 = [t] ∧
      t.attack_type = "Reconnaissance" ∧ t.threat_level = "MEDIUM" ∧
      t.raw = .portScan ((((List.range 11).map (fun n => scanPkt (100 + n))).map pDport).drop 1) 11 ∧
      (runDetect ((List.range 11).map (fun n => scanPkt (100 + n))) detSt0).2.scanPorts = [] :=
  portScan_11 detSt0 ((List.range 11).map (fun n => scanPkt (100 + n))) rfl
    (by decide) (by decide) (by decide)

end Realtime

namespace IdsService

/-- C9: for every attack label in the fixed table, confidence below 0.7
yields exactly the one-step-downgraded level
(CRITICAL→HIGH, HIGH→MEDIUM, MEDIUM→LOW, LOW→LOW), and confidence at or
above 0.7 yields the base level unchanged. -/
theorem threatLevel_downgrade (conf : ℚ) :
    (conf < 7/10 →
      getThreatLevel "Backdoors & Exploits" conf = "HIGH" ∧
      getThreatLevel "Flood Attacks" conf = "MEDIUM" ∧
      getThreatLevel "Botnet/Mirai Attacks" conf = "MEDIUM" ∧
      getThreatLevel "Injection Attacks" conf = "MEDIUM" ∧
      getThreatLevel "Spoofing / MITM" conf = "LOW" ∧
      getThreatLevel "Reconnaissance" conf = "LOW") ∧
    (7/10 ≤ conf →
      getThreatLevel "Backdoors & Exploits" conf = "CRITICAL" ∧
      getThreatLevel "Flood Attacks" conf = "HIGH" ∧
      getThreatLevel "Botnet/Mirai Attacks" conf = "HIGH" ∧
      getThreatLevel "Injection Attacks" conf = "HIGH" ∧
      getThreatLevel "Spoofing / MITM" conf = "MEDIUM" ∧
      getThreatLevel "Reconnaissance" conf = "LOW") := by
  constructor
  · intro h
    refine ⟨?_, ?_, ?_, ?_, ?_, ?_⟩ <;>
      simp [getThreatLevel, threatMapping, levelDowngrade, List.lookup, h]
  · intro h
    have h' : ¬ conf < 7/10 := not_lt.mpr h
    refine ⟨?_, ?_, ?_, ?_, ?_, ?_⟩ <;>
      simp [getThreatLevel, threatMapping, levelDowngrade, List.lookup, h']

/-- Witness for `threatLevel_downgrade`: "Backdoors & Exploits" (base
CRITICAL) is HIGH at confidence 0.65 and CRITICAL at 0.75. -/
theorem threatLevel_downgrade_witness :
    getThreatLevel "Backdoors & Exploits" (65/100) = "HIGH" ∧
    getThreatLevel "Backdoors & Exploits" (75/100) = "CRITICAL" :=
  ⟨((threatLevel_downgrade (65/100)).1 (by norm_num)).1,
   ((threatLevel_downgrade (75/100)).2 (by norm_num)).1⟩

theorem block_unblock_list (tid : String) (l : List SAlert) (a : SAlert)
    (h : findAlert tid l = some a) :
    ∃ l' l'', blockList tid l = some l' ∧ unblockList tid l' = some (l'', true) ∧
      ∃ b, findAlert tid l'' = some b ∧ b.blocked = false := by
  induction l with
  | nil => simp [findAlert] at h
  | cons c r ih =>
    by_cases hc : (c.id == tid) = true
    · refine ⟨{ c with blocked := true } :: r, { c with blocked := false } :: r,
        by simp [blockList, hc], by simp [unblockList, hc], ?_⟩
      exact ⟨{ c with blocked := false }, by simp [findAlert, hc], rfl⟩
    · simp only [findAlert, hc] at h
      rw [if_neg (by simp [hc])] at h
      obtain ⟨l', l'', hb, hu, b, hf, hbl⟩ := ih h
      refine ⟨c :: l', c :: l'', by simp [blockList, hc, hb],
        by simp [unblockList, hc, hu], b, ?_, hbl⟩
      simp [findAlert, hc, hf]

theorem findAlert_none_block (tid : String) (l : List SAlert)
    (h : findAlert tid l = none) : blockList tid l = none := by
  induction l with
  | nil => simp [blockList]
  | cons c r ih =>
    by_cases hc : (c.id == tid) = true
    · simp [findAlert, hc] at h
    · simp only [findAlert, hc] at h
      rw [if_neg (by simp [hc])] at h
      simp [blockList, hc, ih h]

theorem findAlert_none_unblock (tid : String) (l : List SAlert)
    (h : findAlert tid l = none) : unblockList tid l = none := by
  induction l with
  | nil => simp [unblockList]
  | cons c r ih =>
    by_cases hc : (c.id == tid) = true
    · simp [findAlert, hc] at h
    · simp only [findAlert, hc] at h
      rw [if_neg (by simp [hc])] at h
      simp [unblockList, hc, ih h]

/-- C10: for an alert present in `recent_alerts` (in any blocked state),
`block_threat` then `unblock_threat` both return True, leave the alert
unblocked, and restore `blocked_attacks` to its prior value; for an
absent id both return False and change nothing. -/
theorem block_then_unblock (st : BlockState) (tid : String) :
    (∀ a, findAlert tid st.recentAlerts = some a →
      (blockThreat tid st).1 = true ∧
      (unblockThreat tid (blockThreat tid st).2).1 = true ∧
      (∃ b, findAlert tid (unblockThreat tid (blockThreat tid st).2).2.recentAlerts = some b ∧
        b.blocked = false) ∧
      (unblockThreat tid (blockThreat tid st).2).2.blockedAttacks = st.blockedAttacks) ∧
    (findAlert tid st.recentAlerts = none →
      blockThreat tid st = (false, st) ∧ unblockThreat tid st = (false, st)) := by
  constructor
  · intro a h
    obtain ⟨l', l'', hb, hu, b, hf, hbl⟩ := block_unblock_list tid st.recentAlerts a h
    have h1 : blockThreat tid st =
        (true, { recentAlerts := l', blockedAttacks := st.blockedAttacks + 1 }) := by
      simp [blockThreat, hb]
    have h2 : unblockThreat tid (blockThreat tid st).2 =
        (true, { recentAlerts := l'', blockedAttacks := st.blockedAttacks + 1 - 1 }) := by
      rw [h1]
      simp [unblockThreat, hu]
    refine ⟨by rw [h1], by rw [h2], ⟨b, by rw [h2]; exact hf, hbl⟩, by rw [h2]; ring⟩
  · intro h
    exact ⟨by simp [blockThreat, findAlert_none_block tid _ h],
      by simp [unblockThreat, findAlert_none_unblock tid _ h]⟩

/-- Witness for `block_then_unblock`: a two-alert state where the target
alert is already blocked and one where the id is absent. -/
theorem block_then_unblock_witness :
    (let st : BlockState :=
      { recentAlerts := [{ id := "a1", blocked := false }, { id := "a2", blocked := true }],
        blockedAttacks := 3 }
     (blockThreat "a2" st).1 = true ∧
     (unblockThreat "a2" (blockThreat "a2" st).2).1 = true ∧
     (∃ b, findAlert "a2" (unblockThreat "a2" (blockThreat "a2" st).2).2.recentAlerts = some b ∧
       b.blocked = false) ∧
     (unblockThreat "a2" (blockThreat "a2" st).2).2.blockedAttacks = st.blockedAttacks) ∧
    (let st : BlockState :=
      { recentAlerts := [{ id := "a1", blocked := false }], blockedAttacks := 3 }
     blockThreat "zz" st = (false, st) ∧ unblockThreat "zz" st = (false, st)) :=
  ⟨(block_then_unblock _ "a2").1 { id := "a2", blocked := true } rfl,
   (block_then_unblock _ "zz").2 rfl⟩

end IdsService

namespace Gates

/-- C5 (code bug evaluation): a "Benign" classification is not stored in
`recent_alerts`, but the broadcast/persist gate in
`_analyze_packet_for_threats` compares `attack_type.value` against the
string "BENIGN" while the enum value is "Benign", so a Benign alert with
confidence above 0.7 IS broadcast and persisted. -/
theorem benign_broadcast_bug :
    storeGate "Benign" = false ∧
    alertAttackType "Benign" = some Schemas.AttackType.BENIGN ∧
    Schemas.AttackType.BENIGN.value = "Benign" ∧
    broadcastGate Schemas.AttackType.BENIGN (8/10) = true := by
  refine ⟨rfl, rfl, rfl, ?_⟩
  simp [broadcastGate, Schemas.AttackType.value]
  norm_num

end Gates

namespace WebSocketHub

theorem walk_all_ok (connected sendOk : Nat → Bool) (l : List Nat)
    (h : ∀ c ∈ l, connected c = true ∧ sendOk c = true) :
    broadcastWalk connected sendOk l = (l, []) := by
  induction l with
  | nil => rfl
  | cons c r ih =>
    obtain ⟨h1, h2⟩ := h c (by simp)
    rw [broadcastWalk, ih (fun d hd => h d (by simp [hd]))]
    simp [h1, h2]

theorem walk_single_failure (connected sendOk : Nat → Bool) (conns : List Nat)
    (j : Nat) (hj : j ∈ conns) (hnd : conns.Nodup)
    (hcj : connected j = true) (hsj : sendOk j = false)
    (hoth : ∀ c ∈ conns, c ≠ j → connected c = true ∧ sendOk c = true) :
    broadcastWalk connected sendOk conns = (conns.erase j, [j]) := by
  induction conns with
  | nil => simp at hj
  | cons c r ih =>
    by_cases hc : c = j
    · subst hc
      have hnr : c ∉ r := (List.nodup_cons.mp hnd).1
      have hok : ∀ d ∈ r, connected d = true ∧ sendOk d = true := by
        intro d hd
        exact hoth d (by simp [hd]) (fun hdc => hnr (hdc ▸ hd))
      rw [broadcastWalk, walk_all_ok connected sendOk r hok]
      simp [hcj, hsj]
    · have hjr : j ∈ r := by
        rcases List.mem_cons.mp hj with h | h
        · exact absurd h.symm hc
        · exact h
      obtain ⟨hc1, hc2⟩ := hoth c (by simp) hc
      rw [broadcastWalk, ih hjr (List.nodup_cons.mp hnd).2
        (fun d hd hdj => hoth d (by simp [hd]) hdj)]
      simp [hc1, hc2, List.erase_cons_tail, hc]

/-- C6: broadcasting to distinct subscribers where exactly one connected
subscriber `j` fails on delivery: every other subscriber receives the
message, `j` is automatically unsubscribed, and the subscriber count
drops by exactly one. -/
theorem broadcast_isolates_failure (connected sendOk : Nat → Bool)
    (st : WSState) (j : Nat)
    (hj : j ∈ st.activeConnections) (hnd : st.activeConnections.Nodup)
    (hcj : connected j = true) (hsj : sendOk j = false)
    (hoth : ∀ c ∈ st.activeConnections, c ≠ j →
      connected c = true ∧ sendOk c = true) :
    (broadcast connected sendOk st).1 = st.activeConnections.erase j ∧
    (∀ c ∈ st.activeConnections, c ≠ j → c ∈ (broadcast connected sendOk st).1) ∧
    (broadcast connected sendOk st).2.activeConnections = st.activeConnections.erase j ∧
    (broadcast connected sendOk st).2.activeConnections.length + 1 =
      st.activeConnections.length ∧
    j ∉ (broadcast connected sendOk st).2.activeConnections := by
  have hwalk := walk_single_failure connected sendOk st.activeConnections j
    hj hnd hcj hsj hoth
  have hb : broadcast connected sendOk st =
      (st.activeConnections.erase j,
       { activeConnections := st.activeConnections.erase j }) := by
    rw [broadcast, hwalk]
    rfl
  rw [hb]
  refine ⟨rfl, ?_, rfl, ?_, ?_⟩
  · intro c hc hcne
    exact (List.mem_erase_of_ne hcne).mpr hc
  · show (st.activeConnections.erase j).length + 1 = st.activeConnections.length
    have := List.length_erase_of_mem hj
    have hpos : 0 < st.activeConnections.length := List.length_pos.mpr
      (fun he => by simp [he] at hj)
    omega
  · intro hmem
    exact absurd (((hnd.mem_erase_iff).mp hmem).1 rfl) (fun h => h)

/-- Witness for `broadcast_isolates_failure`: subscribers [1, 2, 3], all
connected, delivery to 2 raising. -/
theorem broadcast_isolates_failure_witness :
    (broadcast (fun _ => true) (fun c => c != 2) { activeConnections := [1, 2, 3] }).1 = [1, 3] ∧
    (∀ c ∈ [1, 2, 3], c ≠ 2 →
      c ∈ (broadcast (fun _ => true) (fun c => c != 2) { activeConnections := [1, 2, 3] }).1) ∧
    (broadcast (fun _ => true) (fun c => c != 2)
      { activeConnections := [1, 2, 3] }).2.activeConnections = [1, 3] ∧
    (broadcast (fun _ => true) (fun c => c != 2)
      { activeConnections := [1, 2, 3] }).2.activeConnections.length + 1 = 3 ∧
    2 ∉ (broadcast (fun _ => true) (fun c => c != 2)
      { activeConnections := [1, 2, 3] }).2.activeConnections := by
  have h := broadcast_isolates_failure (fun _ => true) (fun c => c != 2)
    { activeConnections := [1, 2, 3] } 2 (by decide) (by decide) (by decide)
    (by decide) (by decide)
  simpa using h

end WebSocketHub

namespace NetworkMonitor

theorem length_insertFrame (f : Frame) (l : List Frame) :
    (insertFrame f l).length = l.length + 1 := by
  induction l with
  | nil => rfl
  | cons g r ih =>
    rw [insertFrame]
    by_cases h : f.ts < g.ts
    · simp [h]
    · simp [h, ih]

theorem mem_insertFrame (g f : Frame) (l : List Frame) :
    g ∈ insertFrame f l ↔ g = f ∨ g ∈ l := by
  induction l with
  | nil => simp [insertFrame]
  | cons c r ih =>
    rw [insertFrame]
    by_cases h : f.ts < c.ts
    · simp [h]
    · simp [h, ih]
      tauto

theorem sorted_insertFrame (f : Frame) (l : List Frame)
    (h : sortedByTs l) : sortedByTs (insertFrame f l) := by
  induction l with
  | nil => simp [insertFrame, sortedByTs]
  | cons g r ih =>
    rw [insertFrame]
    by_cases hf : f.ts < g.ts
    · simp only [hf, if_pos]
      refine List.Pairwise.cons ?_ h
      intro x hx
      rcases List.mem_cons.mp hx with rfl | hx
      · exact le_of_lt hf
      · have hg := (List.pairwise_cons.mp h).1 x hx
        exact le_trans (le_of_lt hf) hg
    · simp only [hf, if_neg, ite_false]
      have hgr := List.pairwise_cons.mp h
      refine List.Pairwise.cons ?_ (ih hgr.2)
      intro x hx
      rcases (mem_insertFrame x f r).mp hx with rfl | hx
      · exact le_of_not_lt hf
      · exact hgr.1 x hx

theorem length_sortFrames (l : List Frame) :
    (sortFrames l).length = l.length := by
  induction l with
  | nil => rfl
  | cons f r ih => rw [sortFrames, length_insertFrame, ih, List.length_cons]

theorem mem_sortFrames (g : Frame) (l : List Frame) :
    g ∈ sortFrames l ↔ g ∈ l := by
  induction l with
  | nil => simp [sortFrames]
  | cons f r ih =>
    rw [sortFrames, mem_insertFrame]
    simp [ih]

theorem sorted_sortFrames (l : List Frame) : sortedByTs (sortFrames l) := by
  induction l with
  | nil => simp [sortFrames, sortedByTs]
  | cons f r ih => exact sorted_insertFrame f (sortFrames r) ih

theorem bufBounded_iff (buf : PcapBuffer) :
    bufBounded buf = true ↔ ∀ e ∈ buf, e.2.length ≤ 100 := by
  simp [bufBounded, List.all_eq_true]

theorem lookup_bound (buf : PcapBuffer) (k : String) (l : List Frame)
    (hb : ∀ e ∈ buf, e.2.length ≤ 100) (hl : List.lookup k buf = some l) :
    l.length ≤ 100 := by
  induction buf with
  | nil => simp [List.lookup] at hl
  | cons e r ih =>
    by_cases hk : (k == e.1) = true
    · simp only [List.lookup, hk, Option.some.injEq] at hl
      subst hl
      exact hb e (by simp)
    · simp only [List.lookup, Bool.eq_false_iff.mpr (fun h => hk h)] at hl
      exact ih (fun d hd => hb d (by simp [hd])) hl

theorem assocSet_bounded (key : String) (l : List Frame) (buf : PcapBuffer)
    (hl : l.length ≤ 100) (hb : ∀ e ∈ buf, e.2.length ≤ 100) :
    ∀ e ∈ assocSet key l buf, e.2.length ≤ 100 := by
  induction buf with
  | nil =>
    intro e he
    simp [assocSet] at he
    simp [he, hl]
  | cons c r ih =>
    intro e he
    rw [assocSet] at he
    by_cases hk : (c.1 == key) = true
    · rw [if_pos hk] at he
      rcases List.mem_cons.mp he with rfl | hmem
      · exact hl
      · exact hb e (by simp [hmem])
    · rw [if_neg (by simp [hk])] at he
      rcases List.mem_cons.mp he with rfl | hmem
      · exact hb e (by simp)
      · exact ih (fun d hd => hb d (by simp [hd])) e hmem

theorem recordPacket_bounded (key : String) (f : Frame) (buf : PcapBuffer)
    (hb : bufBounded buf = true) :
    bufBounded (recordPacket key f buf) = true := by
  rw [recordPacket, bufBounded_iff]
  apply assocSet_bounded _ _ _ _ ((bufBounded_iff buf).mp hb)
  by_cases hlen : (assocGet key buf ++ [f]).length > 100
  · simp only [hlen, if_pos, List.length_drop]
    omega
  · simp only [hlen, if_neg, ite_false]
    omega

theorem windowFilter_sub (now : Nat) (l : List Frame) :
    (windowFilter now l).length ≤ l.length ∧
    ∀ g ∈ windowFilter now l, now - 30 ≤ g.ts := by
  constructor
  · exact List.length_filter_le _ l
  · intro g hg
    have := List.of_mem_filter hg
    simpa using this

theorem relevantFrames_bounds (buf : PcapBuffer) (srcIp dstIp : String)
    (now : Nat) (hb : bufBounded buf = true) :
    (relevantFrames buf srcIp dstIp now).length ≤ 200 ∧
    ∀ g ∈ relevantFrames buf srcIp dstIp now, now - 30 ≤ g.ts := by
  rw [relevantFrames]
  constructor
  · rw [List.length_append]
    have h1 : (match List.lookup (srcIp ++ "_" ++ dstIp) buf with
        | some l => windowFilter now l
        | none => []).length ≤ 100 := by
      cases hl : List.lookup (srcIp ++ "_" ++ dstIp) buf with
      | some l =>
        simpa using le_trans (windowFilter_sub now l).1
          (lookup_bound buf _ l ((bufBounded_iff buf).mp hb) hl)
      | none => simp
    have h2 : (match List.lookup (dstIp ++ "_" ++ srcIp) buf with
        | some l => windowFilter now l
        | none => []).length ≤ 100 := by
      cases hl : List.lookup (dstIp ++ "_" ++ srcIp) buf with
      | some l =>
        simpa using le_trans (windowFilter_sub now l).1
          (lookup_bound buf _ l ((bufBounded_iff buf).mp hb) hl)
      | none => simp
    omega
  · intro g hg
    rcases List.mem_append.mp hg with h | h
    · cases hl : List.lookup (srcIp ++ "_" ++ dstIp) buf with
      | some l =>
        rw [hl] at h
        exact (windowFilter_sub now l).2 g h
      | none => rw [hl] at h; simp at h
    · cases hl : List.lookup (dstIp ++ "_" ++ srcIp) buf with
      | some l =>
        rw [hl] at h
        exact (windowFilter_sub now l).2 g h
      | none => rw [hl] at h; simp at h

/-- C4 (amended): `recordPacket` keeps every per-direction list at or
below 100 frames, and on any such buffer a snapshot holds at most 200
frames (100 per direction), only frames at most 30 seconds old, sorted by
timestamp, and is exactly the merge of the window-filtered frames of both
directions of the conversation. -/
theorem evidence_snapshot_bounds (buf : PcapBuffer) (key : String) (f : Frame)
    (srcIp dstIp : String) (now : Nat) :
    (bufBounded buf = true → bufBounded (recordPacket key f buf) = true) ∧
    (bufBounded buf = true →
      (snapshot buf srcIp dstIp now).length ≤ 200 ∧
      (∀ g ∈ snapshot buf srcIp dstIp now, now - 30 ≤ g.ts) ∧
      sortedByTs (snapshot buf srcIp dstIp now) ∧
      (∀ g, g ∈ snapshot buf srcIp dstIp now ↔
        g ∈ relevantFrames buf srcIp dstIp now)) := by
  refine ⟨recordPacket_bounded key f buf, fun hb => ⟨?_, ?_, ?_, ?_⟩⟩
  · rw [snapshot, length_sortFrames]
    exact (relevantFrames_bounds buf srcIp dstIp now hb).1
  · intro g hg
    rw [snapshot, mem_sortFrames] at hg
    exact (relevantFrames_bounds buf srcIp dstIp now hb).2 g hg
  · exact sorted_sortFrames _
  · intro g
    rw [snapshot, mem_sortFrames]

end NetworkMonitor

namespace BlockchainAudit

theorem calculateHash_set_hash (H : String → String) (b : Block) (x : String) :
    calculateHash H { b with hash := x } = calculateHash H b := rfl

theorem strStartsWith_zero (s : String) : strStartsWith s (zeros 0) = true := by
  simp [strStartsWith, zeros, List.isPrefixOf]

theorem strStartsWith_mono (s : String) (d d' : Nat) (hd : d' ≤ d)
    (h : strStartsWith s (zeros d) = true) :
    strStartsWith s (zeros d') = true := by
  rw [strStartsWith, List.isPrefixOf_iff_prefix] at h ⊢
  refine List.IsPrefix.trans ?_ h
  show List.replicate d' '0' <+: List.replicate d '0'
  refine ⟨List.replicate (d - d') '0', ?_⟩
  rw [← List.replicate_add]
  congr 1
  omega

theorem mineBlock_spec (H : String → String) (fuel : Nat) (b : Block) (d : Nat)
    (b' : Block) (d' : Nat) (h : mineBlock H fuel b d = some (b', d')) :
    b'.hash = calculateHash H b' ∧ strStartsWith b'.hash (zeros d') = true ∧
    d' ≤ d ∧ (1 ≤ d → 1 ≤ d') ∧
    b'.index = b.index ∧ b'.timestamp = b.timestamp ∧
    b'.data = b.data ∧ b'.previous_hash = b.previous_hash := by
  induction fuel generalizing b d with
  | zero => simp [mineBlock] at h
  | succ fuel ih =>
    by_cases hsw : strStartsWith (calculateHash H b) (zeros d) = true
    · rw [mineBlock] at h
      simp only [hsw, if_pos, Option.some.injEq, Prod.mk.injEq] at h
      obtain ⟨hb, hd⟩ := h
      subst hb
      subst hd
      refine ⟨rfl, hsw, le_refl d, fun h1 => h1, rfl, rfl, rfl, rfl⟩
    · rw [mineBlock] at h
      simp only [hsw, Bool.false_eq_true, if_false] at h
      by_cases hn : b.nonce + 1 > 1000000
      · rw [if_pos hn] at h
        cases d with
        | zero => exact absurd (strStartsWith_zero (calculateHash H b)) hsw
        | succ d0 =>
          obtain ⟨h1, h2, h3, h4, h5, h6, h7, h8⟩ := ih _ _ h
          exact ⟨h1, h2, by omega, fun _ => h4 (by omega), h5, h6, h7, h8⟩
      · rw [if_neg hn] at h
        obtain ⟨h1, h2, h3, h4, h5, h6, h7, h8⟩ := ih _ _ h
        exact ⟨h1, h2, h3, h4, h5, h6, h7, h8⟩

theorem isValidBlock_mono (H : String → String) (d d' : Nat) (b prev : Block)
    (hd : d' ≤ d) (h : isValidBlock H d b prev = true) :
    isValidBlock H d' b prev = true := by
  rw [isValidBlock] at h ⊢
  simp only [Bool.and_eq_true] at h ⊢
  exact ⟨h.1, strStartsWith_mono b.hash d d' hd h.2⟩

theorem chainPairsValid_mono (H : String → String) (d d' : Nat)
    (l : List Block) (hd : d' ≤ d) (h : chainPairsValid H d l = true) :
    chainPairsValid H d' l = true := by
  induction l with
  | nil => rfl
  | cons a r ih =>
    cases r with
    | nil => rfl
    | cons b r2 =>
      rw [chainPairsValid] at h ⊢
      simp only [Bool.and_eq_true] at h ⊢
      exact ⟨isValidBlock_mono H d d' b a hd h.1, ih h.2⟩

theorem chainPairsValid_append (H : String → String) (d : Nat) (l : List Block)
    (p b : Block) (h : chainPairsValid H d l = true)
    (hlast : l.getLast? = some p) (hv : isValidBlock H d b p = true) :
    chainPairsValid H d (l ++ [b]) = true := by
  induction l generalizing p with
  | nil => simp [List.getLast?] at hlast
  | cons a r ih =>
    cases r with
    | nil =>
      simp only [List.getLast?_singleton, Option.some.injEq] at hlast
      subst hlast
      simp [chainPairsValid, hv]
    | cons c r2 =>
      rw [chainPairsValid] at h
      simp only [Bool.and_eq_true] at h
      rw [List.getLast?_cons_cons] at hlast
      simp only [List.cons_append, chainPairsValid, Bool.and_eq_true]
      exact ⟨h.1, ih p h.2 hlast hv⟩

theorem chainPairsValid_pair_false (H : String → String) (d : Nat)
    (l1 l2 : List Block) (a b : Block) (hv : isValidBlock H d b a = false) :
    chainPairsValid H d (l1 ++ a :: b :: l2) = false := by
  induction l1 with
  | nil =>
    simp only [List.nil_append, chainPairsValid]
    simp [hv]
  | cons c r ih =>
    cases hr : r ++ a :: b :: l2 with
    | nil => simp at hr
    | cons x xs =>
      simp only [List.cons_append, hr, chainPairsValid]
      rw [← hr, ih]
      simp

theorem setData_length (l : List Block) (i : Nat) (d : String) :
    (setData l i d).length = l.length := by
  induction l generalizing i with
  | nil => rfl
  | cons b r ih =>
    cases i with
    | zero => rfl
    | succ k => simp [setData, ih]

theorem setData_pairs_false (H : String → String) (d : Nat) (dd : String) :
    ∀ (l : List Block) (j : Nat) (a : Block) (hj : j < l.length),
      ({ l.get ⟨j, hj⟩ with data := dd }).hash ≠
        calculateHash H { l.get ⟨j, hj⟩ with data := dd } →
      chainPairsValid H d (a :: setData l j dd) = false := by
  intro l
  induction l with
  | nil =>
    intro j a hj
    simp at hj
  | cons b r ih =>
    intro j a hj hne
    cases j with
    | zero =>
      rw [setData, chainPairsValid]
      have hvb : isValidBlock H d { b with data := dd } a = false := by
        rw [isValidBlock]
        have : ({ b with data := dd }.hash ==
            calculateHash H { b with data := dd }) = false := by
          simpa using hne
        simp [this]
      simp [hvb]
    | succ k =>
      rw [setData]
      have hk : k < r.length := by simpa using hj
      have h2 := ih k b hk (by simpa using hne)
      cases hs : setData r k dd with
      | nil =>
        have hr0 : r.length = 0 := by
          rw [← setData_length r k dd, hs]
          rfl
        omega
      | cons x xs =>
        rw [chainPairsValid, ← hs, h2]
        simp

end BlockchainAudit

namespace BlockchainAudit

theorem chainPairs_setData_false (H : String → String) (d : Nat) (dd : String)
    (l : List Block) (i : Nat) (h1 : 1 ≤ i) (h2 : i < l.length)
    (hne : ({ l.get ⟨i, h2⟩ with data := dd }).hash ≠
      calculateHash H { l.get ⟨i, h2⟩ with data := dd }) :
    chainPairsValid H d (setData l i dd) = false := by
  obtain ⟨j, rfl⟩ : ∃ j, i = j + 1 := ⟨i - 1, by omega⟩
  cases l with
  | nil => simp at h2
  | cons c rest =>
    rw [setData]
    exact setData_pairs_false H d dd rest j c (by simpa using h2)
      (by simpa using hne)

/-- C1 (amended): a successful `add_block` on a valid chain leaves the
chain valid (appends preserve the global invariant, also across the
mining-induced difficulty drops, which only ever lower the target); and
overwriting the payload of any NON-genesis block so that its stored hash
no longer recomputes makes `is_chain_valid` return false.  (Mutating the
genesis block's payload is not detected — see the counterexample.) -/
theorem auditChain_validity (H : String → String) (fuel : Nat)
    (ts data : String) (st st' : AuditState) (i : Nat) (dd : String) :
    (addBlock H fuel ts data st = some st' → isChainValid H st = true →
      isChainValid H st' = true) ∧
    (∀ (h1 : 1 ≤ i) (h2 : i < st.chain.length),
      ({ st.chain.get ⟨i, h2⟩ with data := dd }).hash ≠
        calculateHash H { st.chain.get ⟨i, h2⟩ with data := dd } →
      isChainValid H (mutateData st i dd) = false) := by
  constructor
  · intro hadd hvalid
    rw [addBlock] at hadd
    split at hadd
    · simp at hadd
    · next prev hlast =>
      split at hadd
      · simp at hadd
      · next mined d' hmine =>
        by_cases hv : isValidBlock H d' mined prev = true
        · rw [if_pos hv] at hadd
          simp only [Option.some.injEq] at hadd
          subst hadd
          rw [isChainValid]
          have hspec := mineBlock_spec H fuel _ st.difficulty mined d' hmine
          exact chainPairsValid_append H d' st.chain prev mined
            (chainPairsValid_mono H st.difficulty d' st.chain hspec.2.2.1 hvalid)
            hlast hv
        · rw [if_neg hv] at hadd
          simp at hadd
  · intro h1 h2 hne
    rw [isChainValid, mutateData]
    exact chainPairs_setData_false H st.difficulty dd st.chain i h1 h2 hne

set_option maxRecDepth 40000 in
/-- C1 counterexample: a chain built through genesis creation plus one
`add_block` validates, and after overwriting the GENESIS block's payload
`is_chain_valid` still returns true — the `range(1, len)` loop never
recomputes the genesis hash, contradicting "returns false if any single
byte of any block's payload (including the genesis block) is mutated". -/
theorem genesis_mutation_undetected :
    ((createGenesisState testHash 2 "t0").bind
      (addBlock testHash 2 "t1" "\"d1\"")).map
      (fun st => (isChainValid testHash st,
                  isChainValid testHash (mutateData st 0 "\"evil\""),
                  (mutateData st 0 "\"evil\"").chain == st.chain)) =
    some (true, true, false) := by
  decide

set_option maxRecDepth 40000 in
/-- Witness for `auditChain_validity`: a third block appended to the
concrete two-block chain keeps it valid, and tampering with the payload
of block 1 breaks validation. -/
theorem auditChain_validity_witness :
    isChainValid testHash cxChain3 = true ∧
    isChainValid testHash (mutateData cxChain2 1 "\"evil\"") = false :=
  ⟨(auditChain_validity testHash 2 "t2" "\"d2\"" cxChain2 cxChain3 1 "\"evil\"").1
      (by decide) (by decide),
   (auditChain_validity testHash 2 "t2" "\"d2\"" cxChain2 cxChain3 1 "\"evil\"").2
      (by decide) (by decide) (by decide)⟩

/-- C7 (amended): `import_chain` validates the imported chain pairwise at
the fresh default difficulty 4: any invalid consecutive pair makes
the import fail with the state unchanged, and a pairwise-valid chain replaces
the current chain wholesale.  (The genesis block itself is never
validated — see the counterexample.) -/
theorem import_chain_spec (H : String → String) (imported : List Block)
    (st : AuditState) (l1 l2 : List Block) (a b : Block) :
    (imported = l1 ++ a :: b :: l2 → isValidBlock H 4 b a = false →
      importChain H imported st = (st, false)) ∧
    (chainPairsValid H 4 imported = true →
      importChain H imported st = ({ st with chain := imported }, true)) := by
  constructor
  · intro him hv
    rw [importChain, him, chainPairsValid_pair_false H 4 l1 l2 a b hv]
    rfl
  · intro hv
    rw [importChain, hv]
    rfl

set_option maxRecDepth 40000 in
/-- C7 counterexample: an imported chain whose genesis block fails both
hash recomputation and the proof-of-work target is fully adopted, because
`is_chain_valid` only checks blocks against their predecessors from index
1 on — contradicting "if any block of the imported chain fails
validation, the import raises an error". -/
theorem import_bad_genesis_accepted :
    (cxGBad.hash == calculateHash testHash cxGBad) = false ∧
    strStartsWith cxGBad.hash (zeros 4) = false ∧
    importChain testHash [cxGBad, cxB1] { chain := [], difficulty := 4 } =
      ({ chain := [cxGBad, cxB1], difficulty := 4 }, true) := by
  refine ⟨by decide, by decide, ?_⟩
  decide

set_option maxRecDepth 40000 in
/-- Witness for `import_chain_spec`: a chain with a broken link is
rejected leaving the state unchanged; the concrete valid two-block chain
is adopted wholesale. -/
theorem import_chain_spec_witness :
    importChain testHash [cxGOK, cxBBad] { chain := [], difficulty := 4 } =
      ({ chain := [], difficulty := 4 }, false) ∧
    importChain testHash cxChain2.chain { chain := [], difficulty := 4 } =
      ({ chain := cxChain2.chain, difficulty := 4 }, true) :=
  ⟨(import_chain_spec testHash [cxGOK, cxBBad] { chain := [], difficulty := 4 }
      [] [] cxGOK cxBBad).1 rfl (by decide),
   (import_chain_spec testHash cxChain2.chain { chain := [], difficulty := 4 }
      [] [] cxGOK cxBBad).2 (by decide)⟩

theorem mineBlock_oneHash_none (fuel : Nat) (b : Block) (d : Nat)
    (hd : 1 ≤ d) : mineBlock oneHash fuel b d = none := by
  induction fuel generalizing b d with
  | zero => rfl
  | succ fuel ih =>
    have hsw : strStartsWith (calculateHash oneHash b) (zeros d) = false := by
      cases d with
      | zero => omega
      | succ d0 =>
        simp [calculateHash, oneHash, strStartsWith, zeros,
          List.replicate_succ, List.isPrefixOf]
    rw [mineBlock]
    simp only [hsw, Bool.false_eq_true, if_false]
    by_cases hn : b.nonce + 1 > 1000000
    · rw [if_pos hn]
      exact ih _ _ (by omega)
    · rw [if_neg hn]
      exact ih _ _ hd

/-- C8 counterexample: the budget mechanism alone does not make mining
terminate — the difficulty floor is 1, so with a hash source that never
yields a leading zero digit the nonce search runs forever (no fuel bound
suffices), contradicting "consequently mining always terminates". -/
theorem mining_nontermination :
    ¬ ∃ fuel bd, mineBlock oneHash fuel
      { index := 0, timestamp := "t0", data := "\"d\"", previous_hash := "0",
        nonce := 0, hash := "" } 4 = some bd := by
  rintro ⟨fuel, bd, h⟩
  rw [mineBlock_oneHash_none fuel _ 4 (by omega)] at h
  exact Option.noConfusion h

/-- C8 (amended): whenever mining returns, the mined block carries a hash
that recomputes and meets the target of the difficulty in effect when the
hash was found; that difficulty never exceeds the starting difficulty and
never drops below 1 (each budget exhaustion lowers it by exactly one and
resets the nonce, per the definition of `mineBlock`); and the searched
block's identity (index, timestamp, payload, previous hash) is
unchanged.  Termination itself is conditional on the hash source. -/
theorem mining_bounded_difficulty (H : String → String) (fuel : Nat)
    (b : Block) (d : Nat) (b' : Block) (d' : Nat)
    (h : mineBlock H fuel b d = some (b', d')) :
    b'.hash = calculateHash H b' ∧ strStartsWith b'.hash (zeros d') = true ∧
    d' ≤ d ∧ (1 ≤ d → 1 ≤ d') ∧
    b'.index = b.index ∧ b'.timestamp = b.timestamp ∧
    b'.data = b.data ∧ b'.previous_hash = b.previous_hash :=
  mineBlock_spec H fuel b d b' d' h

set_option maxRecDepth 40000 in
/-- Witness for `mining_bounded_difficulty` at a concrete block over
`testHash` (the first nonce already meets the target). -/
theorem mining_bounded_difficulty_witness :
    cxMined.hash = calculateHash testHash cxMined ∧
    strStartsWith cxMined.hash (zeros 4) = true ∧
    4 ≤ 4 ∧ (1 ≤ 4 → 1 ≤ 4) ∧
    cxMined.index = cxMineBlock.index ∧
    cxMined.timestamp = cxMineBlock.timestamp ∧
    cxMined.data = cxMineBlock.data ∧
    cxMined.previous_hash = cxMineBlock.previous_hash :=
  mining_bounded_difficulty testHash 1 cxMineBlock 4 cxMined 4 (by decide)

end BlockchainAudit

namespace NetworkMonitor

set_option maxRecDepth 40000 in
/-- C4 counterexample: a buffer built only through `recordPacket` — 51
frames in each direction, all within the window — yields a snapshot of
102 frames, contradicting "the returned evidence snapshot contains at
most Nmax (100) frames" (the per-direction cap is 100 and the snapshot
merges two directions). -/
theorem snapshot_exceeds_nmax :
    bufBounded cxBuf = true ∧
    (snapshot cxBuf "a" "b" 100).length = 102 := by
  constructor <;> decide

set_option maxRecDepth 40000 in
/-- Witness for `evidence_snapshot_bounds` on a one-entry buffer. -/
theorem evidence_snapshot_bounds_witness :
    bufBounded (recordPacket "k" cxFrame [("a_b", [cxFrame])]) = true ∧
    ((snapshot [("a_b", [cxFrame])] "a" "b" 100).length ≤ 200 ∧
     (∀ g ∈ snapshot [("a_b", [cxFrame])] "a" "b" 100, 100 - 30 ≤ g.ts) ∧
     sortedByTs (snapshot [("a_b", [cxFrame])] "a" "b" 100) ∧
     (∀ g, g ∈ snapshot [("a_b", [cxFrame])] "a" "b" 100 ↔
       g ∈ relevantFrames [("a_b", [cxFrame])] "a" "b" 100)) :=
  ⟨(evidence_snapshot_bounds [("a_b", [cxFrame])] "k" cxFrame "a" "b" 100).1
      (by decide),
   (evidence_snapshot_bounds [("a_b", [cxFrame])] "k" cxFrame "a" "b" 100).2
      (by decide)⟩

end NetworkMonitor
